import Mathlib

/-!
Verification of the claude-cli interactive session engine.

The development shallowly embeds the core components of the repository:
the pure text buffer (`src/editor.ts`), the raw-input key parser
(`src/input.ts`), the permission manager (`src/renderer.ts`,
`PermissionManager`), the application phase record (`src/AppState.ts`),
the status-line drowning computation (`src/terminal.ts`), and the
orchestrator key dispatch (`ClaudeCli.handleKey`).

JavaScript strings are modelled as `List Char`; JavaScript `Map`s as
association lists mutated only through `mapSet` / `mapDelete`, which keep
JS `Map` ordering semantics; `setInterval` timers as explicit state
(`none` = no timer, `some` = the live countdown closure's captured data);
promise resolutions and terminal writes as an emitted event list.
-/

namespace TextBuf

/-- A line of text; JavaScript strings are modelled as lists of characters. -/
abbrev Line := List Char

/-- `CursorPosition` from `src/editor.ts`. -/
structure CursorPosition where
  row : Nat
  col : Nat
deriving Repr, DecidableEq

/-- `EditorState` from `src/editor.ts`. -/
structure EditorState where
  lines : List Line
  cursor : CursorPosition
deriving Repr, DecidableEq

/-- `createEditor()`: one empty line, cursor at the origin. -/
def createEditor : EditorState := ⟨[[]], ⟨0, 0⟩⟩

/-- `lines[cursor.row]` — the line under the cursor. -/
def curLine (s : EditorState) : Line := s.lines.getD s.cursor.row []

/-- `getText()`: join the lines with a newline separator. -/
def getText (s : EditorState) : Line := (s.lines.intersperse ['\n']).flatten

/-- `clear()`: reset to the initial empty state. -/
def clear (_s : EditorState) : EditorState := createEditor

/-- The character class of the JS regex `\s` (ASCII portion). -/
def isSpaceC (c : Char) : Bool :=
  c = ' ' || c = '\t' || c = '\n' || c = '\r' || c = '\x0b' || c = '\x0c'

/-- Length matched by the JS regex `^(\s*\S+\s*|^\s+)` (used by `deleteWord`
and `moveWordRight`): greedy leading spaces, then a nonempty nonspace run,
then greedy trailing spaces; if there is no nonspace run, just the leading
spaces.  The regex fails exactly on the empty string, where this returns 0. -/
def fmatchLen (a : Line) : Nat :=
  let sp := (a.takeWhile isSpaceC).length
  let w := ((a.drop sp).takeWhile (fun c => !isSpaceC c)).length
  if w = 0 then sp
  else sp + w + (((a.drop sp).drop w).takeWhile isSpaceC).length

/-- Length matched by the JS regex `(\S+\s*|\s+)$` (used by
`deleteWordBackward` and `moveWordLeft`): the trailing space run plus the
maximal nonspace run before it (leftmost match ending at the string's end).
The regex fails exactly on the empty string, where this returns 0. -/
def bmatchLen (b : Line) : Nat :=
  let r := b.reverse
  let t := (r.takeWhile isSpaceC).length
  let w := ((r.drop t).takeWhile (fun c => !isSpaceC c)).length
  if w = 0 then t else w + t

/-- `insertChar(state, char)` — `char` may be a multi-character string. -/
def insertChar (s : EditorState) (char : Line) : EditorState :=
  let line := curLine s
  let newLine := line.take s.cursor.col ++ char ++ line.drop s.cursor.col
  { lines := s.lines.set s.cursor.row newLine
    cursor := ⟨s.cursor.row, s.cursor.col + char.length⟩ }

/-- `insertNewline(state)`: split the current line at the cursor. -/
def insertNewline (s : EditorState) : EditorState :=
  let line := curLine s
  let before := line.take s.cursor.col
  let after := line.drop s.cursor.col
  { lines := s.lines.take s.cursor.row ++ [before, after] ++ s.lines.drop (s.cursor.row + 1)
    cursor := ⟨s.cursor.row + 1, 0⟩ }

/-- `backspace(state)`. -/
def backspace (s : EditorState) : EditorState :=
  if 0 < s.cursor.col then
    let line := curLine s
    let newLine := line.take (s.cursor.col - 1) ++ line.drop s.cursor.col
    { lines := s.lines.set s.cursor.row newLine
      cursor := ⟨s.cursor.row, s.cursor.col - 1⟩ }
  else if 0 < s.cursor.row then
    let prevLine := s.lines.getD (s.cursor.row - 1) []
    let curL := curLine s
    { lines := s.lines.take (s.cursor.row - 1) ++ [prevLine ++ curL] ++ s.lines.drop (s.cursor.row + 1)
      cursor := ⟨s.cursor.row - 1, prevLine.length⟩ }
  else s

/-- `deleteChar(state)` (forward delete). -/
def deleteChar (s : EditorState) : EditorState :=
  let line := curLine s
  if s.cursor.col < line.length then
    let newLine := line.take s.cursor.col ++ line.drop (s.cursor.col + 1)
    { lines := s.lines.set s.cursor.row newLine, cursor := s.cursor }
  else if s.cursor.row + 1 < s.lines.length then
    let nextLine := s.lines.getD (s.cursor.row + 1) []
    { lines := s.lines.take s.cursor.row ++ [line ++ nextLine] ++ s.lines.drop (s.cursor.row + 2)
      cursor := s.cursor }
  else s

/-- `deleteWord(state)` (forward word delete). -/
def deleteWord (s : EditorState) : EditorState :=
  let line := curLine s
  if line.length ≤ s.cursor.col ∧ s.cursor.row + 1 < s.lines.length then
    deleteChar s
  else
    let after := line.drop s.cursor.col
    if after.isEmpty then s
    else
      let deleteLen := fmatchLen after
      let newLine := line.take s.cursor.col ++ line.drop (s.cursor.col + deleteLen)
      { lines := s.lines.set s.cursor.row newLine, cursor := s.cursor }

/-- `deleteWordBackward(state)`. -/
def deleteWordBackward (s : EditorState) : EditorState :=
  if s.cursor.col = 0 ∧ 0 < s.cursor.row then backspace s
  else
    let line := curLine s
    let before := line.take s.cursor.col
    if before.isEmpty then s
    else
      let deleteLen := bmatchLen before
      let newLine := line.take (s.cursor.col - deleteLen) ++ line.drop s.cursor.col
      { lines := s.lines.set s.cursor.row newLine
        cursor := ⟨s.cursor.row, s.cursor.col - deleteLen⟩ }

/-- `moveLeft(state)`. -/
def moveLeft (s : EditorState) : EditorState :=
  if 0 < s.cursor.col then
    { lines := s.lines, cursor := ⟨s.cursor.row, s.cursor.col - 1⟩ }
  else if 0 < s.cursor.row then
    { lines := s.lines, cursor := ⟨s.cursor.row - 1, (s.lines.getD (s.cursor.row - 1) []).length⟩ }
  else s

/-- `moveRight(state)`. -/
def moveRight (s : EditorState) : EditorState :=
  if s.cursor.col < (curLine s).length then
    { lines := s.lines, cursor := ⟨s.cursor.row, s.cursor.col + 1⟩ }
  else if s.cursor.row + 1 < s.lines.length then
    { lines := s.lines, cursor := ⟨s.cursor.row + 1, 0⟩ }
  else s

/-- `moveUp(state)`. -/
def moveUp (s : EditorState) : EditorState :=
  if 0 < s.cursor.row then
    { lines := s.lines
      cursor := ⟨s.cursor.row - 1, min s.cursor.col (s.lines.getD (s.cursor.row - 1) []).length⟩ }
  else s

/-- `moveDown(state)`. -/
def moveDown (s : EditorState) : EditorState :=
  if s.cursor.row + 1 < s.lines.length then
    { lines := s.lines
      cursor := ⟨s.cursor.row + 1, min s.cursor.col (s.lines.getD (s.cursor.row + 1) []).length⟩ }
  else s

/-- `moveHome(state)`. -/
def moveHome (s : EditorState) : EditorState :=
  { lines := s.lines, cursor := ⟨s.cursor.row, 0⟩ }

/-- `moveEnd(state)`. -/
def moveEnd (s : EditorState) : EditorState :=
  { lines := s.lines, cursor := ⟨s.cursor.row, (curLine s).length⟩ }

/-- `moveBufferStart(state)`. -/
def moveBufferStart (s : EditorState) : EditorState :=
  { lines := s.lines, cursor := ⟨0, 0⟩ }

/-- `moveBufferEnd(state)`. -/
def moveBufferEnd (s : EditorState) : EditorState :=
  let lastRow := s.lines.length - 1
  { lines := s.lines, cursor := ⟨lastRow, (s.lines.getD lastRow []).length⟩ }

/-- `moveWordLeft(state)`. -/
def moveWordLeft (s : EditorState) : EditorState :=
  if s.cursor.col = 0 ∧ 0 < s.cursor.row then
    { lines := s.lines, cursor := ⟨s.cursor.row - 1, (s.lines.getD (s.cursor.row - 1) []).length⟩ }
  else
    let before := (curLine s).take s.cursor.col
    if before.isEmpty then s
    else { lines := s.lines, cursor := ⟨s.cursor.row, s.cursor.col - bmatchLen before⟩ }

/-- `moveWordRight(state)`. -/
def moveWordRight (s : EditorState) : EditorState :=
  let line := curLine s
  if line.length ≤ s.cursor.col ∧ s.cursor.row + 1 < s.lines.length then
    { lines := s.lines, cursor := ⟨s.cursor.row + 1, 0⟩ }
  else
    let after := line.drop s.cursor.col
    if after.isEmpty then s
    else { lines := s.lines, cursor := ⟨s.cursor.row, s.cursor.col + fmatchLen after⟩ }

/-- The Text Buffer cursor invariant: the row indexes an existing line and
the column lies within that line (the nonemptiness of `lines` follows). -/
def WF (s : EditorState) : Prop :=
  s.cursor.row < s.lines.length ∧ s.cursor.col ≤ (curLine s).length

/-- The closed set of Text Buffer operations exported by `src/editor.ts`
(insert character/string, newline, the four deletions, and all cursor
motions). -/
inductive EditOp where
  | insertChar (t : Line)
  | insertNewline
  | backspace
  | deleteChar
  | deleteWord
  | deleteWordBackward
  | moveLeft
  | moveRight
  | moveUp
  | moveDown
  | moveHome
  | moveEnd
  | moveBufferStart
  | moveBufferEnd
  | moveWordLeft
  | moveWordRight

/-- Dispatch an operation to the corresponding `src/editor.ts` function. -/
def applyOp : EditOp → EditorState → EditorState
  | .insertChar t => (insertChar · t)
  | .insertNewline => insertNewline
  | .backspace => backspace
  | .deleteChar => deleteChar
  | .deleteWord => deleteWord
  | .deleteWordBackward => deleteWordBackward
  | .moveLeft => moveLeft
  | .moveRight => moveRight
  | .moveUp => moveUp
  | .moveDown => moveDown
  | .moveHome => moveHome
  | .moveEnd => moveEnd
  | .moveBufferStart => moveBufferStart
  | .moveBufferEnd => moveBufferEnd
  | .moveWordLeft => moveWordLeft
  | .moveWordRight => moveWordRight

/-- What `deleteWordBackward` removed: nothing (cursor at the buffer
start), the line break (cursor at column 0 of a later line, where the
operation merges lines), or a run of characters within the current line. -/
inductive WBDeleted where
  | nothing
  | lineBreak
  | text (t : Line)

/-- Compute the text that `deleteWordBackward` deletes from `s`. -/
def wbDeleted (s : EditorState) : WBDeleted :=
  if s.cursor.col = 0 ∧ 0 < s.cursor.row then .lineBreak
  else
    let before := (curLine s).take s.cursor.col
    if before.isEmpty then .nothing
    else .text (before.drop (before.length - bmatchLen before))

/-- Re-insert deleted material at the cursor: a deleted line break is
re-inserted with `insertNewline`, deleted characters with `insertChar`. -/
def reinsertDeleted (s : EditorState) : WBDeleted → EditorState
  | .nothing => s
  | .lineBreak => insertNewline s
  | .text t => insertChar s t

end TextBuf

namespace CliInput

/-- `KeyAction` from `src/input.ts`.  `end` and `delete` are Lean keywords
or near-keywords, so arrow/navigation constructors carry a `Key` suffix
where needed; each constructor corresponds to the TS union member of the
same meaning. -/
inductive KeyAction where
  | char (value : List Char)
  | enter
  | ctrlEnter
  | backspace
  | deleteKey
  | ctrlDelete
  | ctrlBackspace
  | left
  | right
  | up
  | down
  | homeKey
  | endKey
  | ctrlHome
  | ctrlEnd
  | ctrlLeft
  | ctrlRight
  | ctrlC
  | ctrlD
  | escape
  | unknown (raw : List Char)
deriving Repr, DecidableEq

/-- One hex digit, lower case, as produced by `JSON.stringify`. -/
def hexDigit (n : Nat) : Char :=
  if n < 10 then Char.ofNat ('0'.toNat + n) else Char.ofNat ('a'.toNat + (n - 10))

/-- How `JSON.stringify` escapes a single character inside a string. -/
def escapeJson (c : Char) : List Char :=
  if c = '"' then ['\\', '"']
  else if c = '\\' then ['\\', '\\']
  else if c = '\x08' then ['\\', 'b']
  else if c = '\x0c' then ['\\', 'f']
  else if c = '\n' then ['\\', 'n']
  else if c = '\r' then ['\\', 'r']
  else if c = '\t' then ['\\', 't']
  else if c.toNat < 0x20 then
    ['\\', 'u', '0', '0', hexDigit (c.toNat / 16), hexDigit (c.toNat % 16)]
  else [c]

/-- `JSON.stringify(data)` for a string: quote, escape, quote.  Used by
`parseEscapeSequence` to build the `raw` payload of `unknown` actions. -/
def jsonStringify (data : List Char) : List Char :=
  '"' :: (data.flatMap escapeJson) ++ ['"']

/-- Decimal digit run to a number (`Number(...)` on the digits captured by
the CSI-u regex). -/
def digitsToNat (ds : List Char) : Nat :=
  ds.foldl (fun n c => n * 10 + (c.toNat - '0'.toNat)) 0

/-- The CSI-u (`modifyOtherKeys` / kitty protocol) branch: the JS regex
`^(\d+);(\d+)u$` over the post-`ESC [` sequence, then the keycode/modifier
dispatch.  Returns `none` when the regex does not match or the
keycode/modifier pair is not one of the two recognized ones. -/
def csiUAction (seq : List Char) : Option KeyAction :=
  let d1 := seq.takeWhile Char.isDigit
  let rest := seq.drop d1.length
  if d1.isEmpty then none
  else
    match rest with
    | ';' :: rest2 =>
      let d2 := rest2.takeWhile Char.isDigit
      let rest3 := rest2.drop d2.length
      if d2.isEmpty then none
      else if rest3 = ['u'] then
        let keycode := digitsToNat d1
        let modifier := digitsToNat d2
        if keycode = 13 ∧ modifier = 5 then some .ctrlEnter
        else if keycode = 127 ∧ modifier = 5 then some .ctrlBackspace
        else none
      else none
    | _ => none

/-- The recognized fixed CSI tails (`parseEscapeSequence`'s literal
comparisons), in source order. -/
def csiFixed (seq : List Char) : Option KeyAction :=
  if seq = ['A'] then some .up
  else if seq = ['B'] then some .down
  else if seq = ['C'] then some .right
  else if seq = ['D'] then some .left
  else if seq = ['H'] then some .homeKey
  else if seq = ['F'] then some .endKey
  else if seq = ['1', '~'] then some .homeKey
  else if seq = ['4', '~'] then some .endKey
  else if seq = ['3', '~'] then some .deleteKey
  else if seq = ['3', ';', '5', '~'] then some .ctrlDelete
  else if seq = ['1', ';', '5', 'H'] then some .ctrlHome
  else if seq = ['1', ';', '5', 'F'] then some .ctrlEnd
  else if seq = ['1', ';', '5', 'D'] then some .ctrlLeft
  else if seq = ['1', ';', '5', 'C'] then some .ctrlRight
  else none

/-- `parseEscapeSequence(data)` from `src/input.ts`: CSI dispatch with the
`unknown` fallback carrying `JSON.stringify(data)`. -/
def parseEscapeSequence (data : List Char) : KeyAction :=
  if data.take 2 = ['\x1b', '['] then
    let seq := data.drop 2
    match csiFixed seq with
    | some k => k
    | none =>
      match csiUAction seq with
      | some k => k
      | none => .unknown (jsonStringify data)
  else .unknown (jsonStringify data)

/-- `parseSingleKey(data)` from `src/input.ts`; `none` models the JS
`null` return for unrecognized non-escape input. -/
def parseSingleKey (data : List Char) : Option KeyAction :=
  if data = ['\x03'] then some .ctrlC
  else if data = ['\x04'] then some .ctrlD
  else if data = ['\x1b', 'd'] then some .ctrlDelete
  else if data = ['\x1b', '\n'] ∨ data = ['\x1b', '\r'] then some .ctrlEnter
  else if data = ['\r'] ∨ data = ['\n'] then some .enter
  else if data = ['\x1b', '\x7f'] ∨ data = ['\x1b', '\x08'] ∨ data = ['\x17'] then
    some .ctrlBackspace
  else if data = ['\x7f'] ∨ data = ['\x08'] then some .backspace
  else if data = ['\x1b'] then some .escape
  else if data.head? = some '\x1b' then some (parseEscapeSequence data)
  else
    match data with
    | [c] => if ' ' ≤ c then some (.char [c]) else none
    | _ => none

/-- `parseKeys(data)` from `src/input.ts`: a whole-input parse first, then
the paste path that splits into single characters, silently skipping the
characters for which `parseSingleKey` returns `null`.  (The `DEBUG`
key-logging block is I/O only and is not modelled.) -/
def parseKeys (data : List Char) : List KeyAction :=
  match parseSingleKey data with
  | some k => [k]
  | none => data.filterMap (fun ch => parseSingleKey [ch])

end CliInput

namespace PM

/-- Tool input (`Record<string, unknown>`): modelled as an association
list of string fields; only the `description` field is ever inspected,
and only string values reach it in the modelled paths. -/
abbrev ToolInput := List (String × String)

/-- `PermissionResult` from the agent SDK, as constructed by this code:
`{behavior:'allow', updatedInput}` or `{behavior:'deny', message}`. -/
inductive PermissionResult where
  | allow (updatedInput : ToolInput)
  | deny (message : String)
deriving Repr, DecidableEq

/-- `PendingPermission` from `src/renderer.ts`. -/
structure PendingPermission where
  toolUseId : String
  toolName : String
  input : ToolInput
  label : String
deriving Repr, DecidableEq

/-- `AppPhase` from `src/AppState.ts`. -/
inductive AppPhase where
  | idle
  | sending
  | thinking
  | prompting
  | asking
deriving Repr, DecidableEq

/-- The observable fields of `AppState` (`src/AppState.ts`).  The elapsed
clock (`_sendStartTime`, the 500 ms re-emit interval) is wall-clock I/O
and is not modelled; no claim depends on it. -/
structure AppStateM where
  phase : AppPhase
  promptLabel : Option String
  promptRemaining : Option Nat
deriving Repr, DecidableEq

/-- `AppState.prompting(label, remaining?)`: `_promptRemaining = remaining ?? null`.
A call site that passes no second argument is modelled by `none`. -/
def AppStateM.prompting (_a : AppStateM) (label : String) (remaining : Option Nat) : AppStateM :=
  { phase := .prompting, promptLabel := some label, promptRemaining := remaining }

/-- `AppState.thinking()` (label and remaining cleared; the elapsed clock
restart is not modelled). -/
def AppStateM.thinking (_a : AppStateM) : AppStateM :=
  { phase := .thinking, promptLabel := none, promptRemaining := none }

/-- Externally observable effects of the permission manager: a waiter's
promise being resolved, and the terminal writes. -/
inductive PMEvent where
  | resolved (toolUseId : String) (result : PermissionResult)
  | info (message : String)
  | log (message : String)
deriving Repr, DecidableEq

/-- The `PermissionManager` fields (`src/renderer.ts`).  `timer` models the
countdown `setInterval`: `none` = no interval; `some (cur, remaining)` =
an interval whose closure captured the item `cur` and whose mutable
`remaining` variable currently holds `remaining`. -/
structure PMState where
  queue : List PendingPermission
  currentIndex : Nat
  decisions : List (String × Bool)
  waiters : List (String × ToolInput)
  timer : Option (PendingPermission × Nat)
  app : AppStateM
deriving Repr, DecidableEq

/-- `Map.get`. -/
def mapGet {α} (m : List (String × α)) (k : String) : Option α :=
  (m.find? (fun p => p.1 == k)).map (·.2)

/-- `Map.delete`. -/
def mapDelete {α} (m : List (String × α)) (k : String) : List (String × α) :=
  m.filter (fun p => !(p.1 == k))

/-- `Map.set`: replaces in place if the key exists, appends otherwise
(JS `Map` insertion-order semantics). -/
def mapSet {α} (m : List (String × α)) (k : String) (v : α) : List (String × α) :=
  if m.any (fun p => p.1 == k) then
    m.map (fun p => if p.1 == k then (k, v) else p)
  else m ++ [(k, v)]

/-- `getTimeoutMs(toolName)` from `src/renderer.ts`. -/
def getTimeoutMs (toolName : String) : Nat :=
  if toolName == "ExitPlanMode" || toolName == "EnterPlanMode" then 120000 else 30000

/-- `Math.ceil(ms / 1000)` on naturals. -/
def ceilSeconds (ms : Nat) : Nat := (ms + 999) / 1000

/-- The `[i/n] ` prefix plus `Allow? <label> (y/n) [<remaining>s]` string
built in `showCurrent` and in the countdown tick. -/
def promptText (queueLength currentIndex : Nat) (label : String) (remaining : Nat) : String :=
  (if 1 < queueLength then
      "[" ++ toString (currentIndex + 1) ++ "/" ++ toString queueLength ++ "] "
    else "") ++
  "Allow? " ++ label ++ " (y/n) [" ++ toString remaining ++ "s]"

/-- `showCurrent()`: clear the interval, and if an item is selected,
reset the countdown to the tool's full timeout, set the `prompting`
phase (note: no `remaining` argument is passed to `AppState.prompting`),
and start a fresh interval. -/
def showCurrent (s : PMState) : PMState :=
  let s := { s with timer := none }
  match s.queue[s.currentIndex]? with
  | none => s
  | some cur =>
    let remaining := ceilSeconds (getTimeoutMs cur.toolName)
    { s with
      app := s.app.prompting (promptText s.queue.length s.currentIndex cur.label remaining) none
      timer := some (cur, remaining) }

/-- `toResult(allowed, input, reason?)`. -/
def toResult (allowed : Bool) (input : ToolInput) (reason : Option String) : PermissionResult :=
  if allowed then .allow input
  else .deny (if reason == some "timed out" then "Permission timed out" else "User denied")

/-- `removeAtIndex(idx)`: splice the queue, adjust `currentIndex` to stay
in range, then either fall back to `thinking` (queue drained) or
re-display the new current item.  `idx` is a JS number; `findIndex`
misses are `-1`. -/
def removeAtIndex (s : PMState) (idx : Int) : PMState :=
  if idx < 0 ∨ (s.queue.length : Int) ≤ idx then s
  else
    let n := idx.toNat
    let q := s.queue.eraseIdx n
    let ci :=
      if n < s.currentIndex then s.currentIndex - 1
      else if q.length ≤ s.currentIndex ∧ 0 < s.currentIndex then q.length - 1
      else s.currentIndex
    let s := { s with queue := q, currentIndex := ci }
    if s.queue.isEmpty then
      { s with timer := none, currentIndex := 0, app := s.app.thinking }
    else showCurrent s

/-- `Array.prototype.findIndex` as an index option: index of the first
element satisfying the predicate. -/
def jsFindIndexN {α} (p : α → Bool) : List α → Option Nat
  | [] => none
  | a :: t => if p a then some 0 else (jsFindIndexN p t).map (· + 1)

/-- `queue.findIndex((p) => p.toolUseId === toolUseId)` (misses are `-1`). -/
def findIndexInt (q : List PendingPermission) (toolUseId : String) : Int :=
  match jsFindIndexN (fun p => p.toolUseId == toolUseId) q with
  | some n => (n : Int)
  | none => -1

/-- `handleResult(toolUseId)`: drop any cached decision, then remove the
item through the shared removal path (the decisions update leaves the
queue untouched, so `findIndex` runs over the same queue). -/
def handleResult (s : PMState) (toolUseId : String) : PMState :=
  removeAtIndex { s with decisions := mapDelete s.decisions toolUseId }
    (findIndexInt s.queue toolUseId)

/-- `removeFromQueue(toolUseId)`. -/
def removeFromQueue (s : PMState) (toolUseId : String) : PMState :=
  removeAtIndex s (findIndexInt s.queue toolUseId)

/-- `resolveCurrentItem(allowed, reason?)`: clear the interval; if an item
is selected, log the outcome, resolve a registered waiter directly or
cache the decision otherwise, and remove the item through
`removeAtIndex`. -/
def resolveCurrentItem (s : PMState) (allowed : Bool) (reason : Option String) :
    PMState × List PMEvent :=
  let s := { s with timer := none }
  match s.queue[s.currentIndex]? with
  | none => (s, [])
  | some cur =>
    let outcome :=
      if allowed then "allowed" else if reason == some "timed out" then "timed out" else "denied"
    let ev1 := PMEvent.info ("Allow? " ++ cur.label ++ ": " ++ outcome)
    match mapGet s.waiters cur.toolUseId with
    | some winput =>
      let s := { s with waiters := mapDelete s.waiters cur.toolUseId }
      (removeAtIndex s (s.currentIndex : Int),
        [ev1, PMEvent.resolved cur.toolUseId (toResult allowed winput reason)])
    | none =>
      let s := { s with decisions := mapSet s.decisions cur.toolUseId allowed }
      (removeAtIndex s (s.currentIndex : Int), [ev1])

/-- Outcome of `resolve` for the backend: an immediately returned result
(pre-made decision) or a registered waiter whose promise stays pending. -/
inductive ResolveOutcome where
  | immediate (result : PermissionResult)
  | registered
deriving Repr, DecidableEq

/-- `resolve(toolUseId, input, signal?)`: consume a cached decision, or
register a waiter.  (The abort listener is modelled by `sdkAbort`.) -/
def resolve (s : PMState) (toolUseId : String) (input : ToolInput) :
    PMState × ResolveOutcome :=
  match mapGet s.decisions toolUseId with
  | some decision =>
    ({ s with decisions := mapDelete s.decisions toolUseId },
      .immediate (toResult decision input none))
  | none =>
    ({ s with waiters := mapSet s.waiters toolUseId input }, .registered)

/-- The abort-signal listener registered by `resolve`: if the waiter is
still present, delete it, remove the item from the queue, and resolve the
promise as cancelled. -/
def sdkAbort (s : PMState) (toolUseId : String) : PMState × List PMEvent :=
  if (mapGet s.waiters toolUseId).isSome then
    let s := { s with waiters := mapDelete s.waiters toolUseId }
    (removeFromQueue s toolUseId,
      [PMEvent.log "Permission cancelled by SDK",
        PMEvent.resolved toolUseId (.deny "Cancelled")])
  else (s, [])

/-- `handleKey(key)`: the modal key handler; returns whether the key was
consumed. -/
def handleKey (s : PMState) (key : CliInput.KeyAction) :
    PMState × Bool × List PMEvent :=
  if s.queue.isEmpty then (s, false, [])
  else
    match key with
    | .char v =>
      if v = ['y'] ∨ v = ['Y'] then
        let r := resolveCurrentItem s true none
        (r.1, true, r.2)
      else if v = ['n'] ∨ v = ['N'] then
        let r := resolveCurrentItem s false none
        (r.1, true, r.2)
      else (s, true, [])
    | .left =>
      if 0 < s.currentIndex then
        (showCurrent { s with currentIndex := s.currentIndex - 1 }, true, [])
      else (s, true, [])
    | .right =>
      if s.currentIndex + 1 < s.queue.length then
        (showCurrent { s with currentIndex := s.currentIndex + 1 }, true, [])
      else (s, true, [])
    | _ => (s, true, [])

/-- `cancelAll()`: stop the timer, reset the index, resolve every waiter
as `Cancelled`, clear queue and decisions.  (`appState` is not touched.) -/
def cancelAll (s : PMState) : PMState × List PMEvent :=
  ({ s with timer := none, currentIndex := 0, waiters := [], queue := [], decisions := [] },
    s.waiters.map (fun w => PMEvent.resolved w.1 (.deny "Cancelled")))

/-- `enqueue(toolUseId, toolName, input)`: build the label from the
`description` field, push, and display. -/
def enqueue (s : PMState) (toolUseId toolName : String) (input : ToolInput) : PMState :=
  let label :=
    match mapGet input "description" with
    | some desc => toolName ++ ": " ++ desc
    | none => toolName
  showCurrent { s with queue := s.queue ++ [⟨toolUseId, toolName, input, label⟩] }

/-- One firing of the countdown interval started by `showCurrent`:
decrement the captured `remaining`; at zero resolve the current item as
denied / timed out, otherwise re-emit the prompt with the captured item's
label and the live queue position. -/
def tick (s : PMState) : PMState × List PMEvent :=
  match s.timer with
  | none => (s, [])
  | some (cur, remaining) =>
    let remaining := remaining - 1
    if remaining = 0 then
      resolveCurrentItem { s with timer := some (cur, remaining) } false (some "timed out")
    else
      ({ s with
          timer := some (cur, remaining)
          app := s.app.prompting
            (promptText s.queue.length s.currentIndex cur.label remaining) none }, [])

/-- The `drowning` test in `Terminal.buildStatusLine` (`src/terminal.ts`):
`drowningThreshold !== null && remaining !== null && remaining <= threshold`. -/
def drowningFlag (drowningThreshold : Option Nat) (a : AppStateM) : Bool :=
  match drowningThreshold, a.promptRemaining with
  | some th, some rem => rem ≤ th
  | _, _ => false

/-- The `inverse` bit of the prompting status line: flashing (alternating
on even/odd seconds) when drowning, steady inverse otherwise. -/
def statusInverse (drowningThreshold : Option Nat) (a : AppStateM) : Bool :=
  if drowningFlag drowningThreshold a then (a.promptRemaining.getD 0) % 2 = 0 else true

/-- The id a `resolved` event delivers a result for, if any. -/
def evResolvedId : PMEvent → Option String
  | .resolved toolUseId _ => some toolUseId
  | _ => none

/-- The permission manager's construction-time state (empty queue and
maps, no timer) paired with the initial `AppState` (`idle`). -/
def initState : PMState :=
  { queue := [], currentIndex := 0, decisions := [], waiters := [], timer := none,
    app := { phase := .idle, promptLabel := none, promptRemaining := none } }

/-- The state reached by one interval firing, events discarded. -/
def tickState (s : PMState) : PMState := (tick s).1

/-- The C2 scenario: approvals A, B, C enqueued in order, user presses
right, right (selecting C), then denies with `n`. -/
def c2Final : PMState :=
  let s1 := enqueue initState "idA" "Bash" [("description", "A")]
  let s2 := enqueue s1 "idB" "Bash" [("description", "B")]
  let s3 := enqueue s2 "idC" "Bash" [("description", "C")]
  let s4 := (handleKey s3 .right).1
  let s5 := (handleKey s4 .right).1
  (handleKey s5 (.char ['n'])).1

/-- The C4 scenario: one `Bash` approval enqueued (30 s countdown), then
20 countdown ticks, leaving 10 s on the timer. -/
def c4Scenario : PMState := tickState^[20] (enqueue initState "t1" "Bash" [])

/-- The keys `handleKey` dispatches on (`char`, `left`, `right`); every
other key falls to the modal swallow branch. -/
def isPMActionKey : CliInput.KeyAction → Bool
  | .char _ => true
  | .left => true
  | .right => true
  | _ => false

/-- Witness state for C1: one pre-made decision (`id1`) and one
registered waiter (`id2`) whose item is the displayed one. -/
def c1State : PMState :=
  { initState with
      queue := [⟨"id2", "Bash", [], "Bash"⟩]
      decisions := [("id1", true)]
      waiters := [("id2", [("a", "b")])] }

/-- The C3 witness item. -/
def c3Item : PendingPermission := ⟨"idT", "Bash", [], "Bash"⟩

/-- Witness state for C3: the displayed item's countdown stands at 1 s
with the backend already waiting. -/
def c3State : PMState :=
  { initState with
      queue := [c3Item]
      waiters := [("idT", [])]
      timer := some (c3Item, 1) }

end PM

namespace Cli

/-- The `PromptManager` operations that `ClaudeCli.handleKey` calls,
abstracted over the prompt manager's internal state `Q`; `C10` holds for
every implementation of this interface. -/
structure PromptsModel (Q : Type) where
  isOtherMode : Q → Bool
  cancelOther : Q → Q
  cancelAllQ : Q → Q
  handleKeyQ : Q → CliInput.KeyAction → Q × Bool

/-- The `ClaudeCli` fields that `handleKey` reads or writes. -/
structure CliState (Q : Type) where
  editor : TextBuf.EditorState
  savedEditor : Option TextBuf.EditorState
  permissions : PM.PMState
  prompts : Q
  sessionActive : Bool
deriving DecidableEq

/-- `restoreEditor()`: swap the saved composition buffer back in. -/
def restoreEditor {Q : Type} (st : CliState Q) : CliState Q :=
  match st.savedEditor with
  | some e => { st with editor := e, savedEditor := none }
  | none => st

/-- Outcome of one `ClaudeCli.handleKey` call: the process exits, a
submit path is entered (`submit()` / `submitOther()`, whose internals are
outside this dispatch), or execution continues with an updated state. -/
inductive CliStep (Q : Type) where
  | exitApp
  | submitStep (st : CliState Q)
  | cont (st : CliState Q)

/-- `ClaudeCli.handleKey(key)` (the orchestrator dispatch): ctrl+c and
escape are intercepted first; then the permission manager's modal
handler; then the prompt manager; then the session-active guard; finally
the editing switch over the Text Buffer.  Events are the permission
manager's emitted events. -/
def cliHandleKey {Q : Type} (P : PromptsModel Q) (st : CliState Q)
    (key : CliInput.KeyAction) : CliStep Q × List PM.PMEvent :=
  match key with
  | .ctrlC => (.exitApp, [])
  | .escape =>
    if P.isOtherMode st.prompts then
      (.cont (restoreEditor { st with prompts := P.cancelOther st.prompts }), [])
    else if st.sessionActive then
      let r := PM.cancelAll st.permissions
      (.cont (restoreEditor
        { st with permissions := r.1, prompts := P.cancelAllQ st.prompts }), r.2)
    else (.cont st, [])
  | _ =>
    let r := PM.handleKey st.permissions key
    if r.2.1 then (.cont { st with permissions := r.1 }, r.2.2)
    else
      let st := { st with permissions := r.1 }
      let pq := P.handleKeyQ st.prompts key
      if pq.2 then
        let st := { st with prompts := pq.1 }
        if P.isOtherMode st.prompts && st.savedEditor.isNone then
          (.cont { st with savedEditor := some st.editor, editor := TextBuf.createEditor }, [])
        else (.cont st, [])
      else
        let st := { st with prompts := pq.1 }
        if st.sessionActive && !(P.isOtherMode st.prompts) then (.cont st, [])
        else
          match key with
          | .ctrlD =>
            if P.isOtherMode st.prompts then (.cont st, []) else (.exitApp, [])
          | .ctrlEnter => (.submitStep st, [])
          | .enter => (.cont { st with editor := TextBuf.insertNewline st.editor }, [])
          | .backspace => (.cont { st with editor := TextBuf.backspace st.editor }, [])
          | .deleteKey => (.cont { st with editor := TextBuf.deleteChar st.editor }, [])
          | .ctrlDelete => (.cont { st with editor := TextBuf.deleteWord st.editor }, [])
          | .ctrlBackspace =>
            (.cont { st with editor := TextBuf.deleteWordBackward st.editor }, [])
          | .left => (.cont { st with editor := TextBuf.moveLeft st.editor }, [])
          | .right => (.cont { st with editor := TextBuf.moveRight st.editor }, [])
          | .up => (.cont { st with editor := TextBuf.moveUp st.editor }, [])
          | .down => (.cont { st with editor := TextBuf.moveDown st.editor }, [])
          | .homeKey => (.cont { st with editor := TextBuf.moveHome st.editor }, [])
          | .endKey => (.cont { st with editor := TextBuf.moveEnd st.editor }, [])
          | .ctrlHome => (.cont { st with editor := TextBuf.moveBufferStart st.editor }, [])
          | .ctrlEnd => (.cont { st with editor := TextBuf.moveBufferEnd st.editor }, [])
          | .ctrlLeft => (.cont { st with editor := TextBuf.moveWordLeft st.editor }, [])
          | .ctrlRight => (.cont { st with editor := TextBuf.moveWordRight st.editor }, [])
          | .char v => (.cont { st with editor := TextBuf.insertChar st.editor v }, [])
          | .unknown _ => (.cont st, [])
          | .ctrlC => (.cont st, [])
          | .escape => (.cont st, [])

/-- Editor projection of a dispatch outcome (`none` when the process
exits). -/
def stepEditor {Q : Type} : CliStep Q → Option TextBuf.EditorState
  | .exitApp => none
  | .submitStep st => some st.editor
  | .cont st => some st.editor

/-- A trivial prompt manager implementation: never in other-mode, never
consumes a key. -/
def trivialPrompts : PromptsModel Unit :=
  { isOtherMode := fun _ => false
    cancelOther := fun q => q
    cancelAllQ := fun q => q
    handleKeyQ := fun q _ => (q, false) }

/-- The C10 scenario state: one approval pending, a saved composition
buffer from a previous other-mode entry, query active. -/
def c10St : CliState Unit :=
  { editor := TextBuf.createEditor
    savedEditor := some ⟨[['x']], ⟨0, 1⟩⟩
    permissions := PM.enqueue PM.initState "idX" "Bash" []
    prompts := ()
    sessionActive := true }

end Cli

namespace TextBuf

theorem getD_set_self {α} (l : List α) (n : Nat) (x d : α) (h : n < l.length) :
    (l.set n x).getD n d = x := by
  induction l generalizing n with
  | nil => simp at h
  | cons a t ih =>
    cases n with
    | zero => rfl
    | succ m => simpa using ih m (by simpa using h)

theorem set_getD_self {α} (l : List α) (n : Nat) (d : α) :
    l.set n (l.getD n d) = l := by
  induction l generalizing n with
  | nil => rfl
  | cons a t ih =>
    cases n with
    | zero => rfl
    | succ m => simpa using ih m

theorem getD_append_lt {α} (l₁ l₂ : List α) (n : Nat) (d : α) (h : n < l₁.length) :
    (l₁ ++ l₂).getD n d = l₁.getD n d := by
  induction l₁ generalizing n with
  | nil => simp at h
  | cons a t ih =>
    cases n with
    | zero => rfl
    | succ m => simpa using ih m (by simpa using h)

theorem getD_append_len {α} (l₁ l₂ : List α) (x d : α) :
    (l₁ ++ x :: l₂).getD l₁.length d = x := by
  induction l₁ with
  | nil => rfl
  | cons a t ih => simpa using ih

theorem drop_eq_getD_cons {α} (l : List α) (n : Nat) (d : α) (h : n < l.length) :
    l.drop n = l.getD n d :: l.drop (n + 1) := by
  induction l generalizing n with
  | nil => simp at h
  | cons a t ih =>
    cases n with
    | zero => rfl
    | succ m => simpa using ih m (by simpa using h)

theorem tw_le {α} (p : α → Bool) (l : List α) : (l.takeWhile p).length ≤ l.length :=
  (List.takeWhile_sublist _).length_le

theorem getD_mid3 {α} (l₁ l₂ : List α) (x d : α) (n : Nat) (h : l₁.length = n) :
    (l₁ ++ [x] ++ l₂).getD n d = x := by
  subst h
  rw [List.append_assoc, List.singleton_append]
  exact getD_append_len l₁ l₂ x d

theorem fmatchLen_le (a : Line) : fmatchLen a ≤ a.length := by
  have h1 := tw_le isSpaceC a
  have h2 := tw_le (fun c => !isSpaceC c) (a.drop (a.takeWhile isSpaceC).length)
  have h3 := tw_le isSpaceC ((a.drop (a.takeWhile isSpaceC).length).drop
      ((a.drop (a.takeWhile isSpaceC).length).takeWhile (fun c => !isSpaceC c)).length)
  rw [List.length_drop] at h2
  rw [List.length_drop, List.length_drop] at h3
  simp only [fmatchLen]
  split <;> omega

theorem bmatchLen_le (b : Line) : bmatchLen b ≤ b.length := by
  have h1 := tw_le isSpaceC b.reverse
  have h2 := tw_le (fun c => !isSpaceC c) (b.reverse.drop (b.reverse.takeWhile isSpaceC).length)
  rw [List.length_reverse] at h1
  rw [List.length_drop, List.length_reverse] at h2
  simp only [bmatchLen]
  split <;> omega

theorem WF_mk (lines : List Line) (row col : Nat)
    (hr : row < lines.length) (hc : col ≤ (lines.getD row []).length) :
    WF ⟨lines, ⟨row, col⟩⟩ :=
  ⟨hr, hc⟩

theorem WF_mk' (lines : List Line) (c : CursorPosition)
    (hr : c.row < lines.length) (hc : c.col ≤ (lines.getD c.row []).length) :
    WF ⟨lines, c⟩ :=
  ⟨hr, hc⟩

theorem WF_createEditor : WF createEditor := by
  constructor <;> simp [createEditor, curLine]

theorem WF_insertChar (s : EditorState) (t : Line) (h : WF s) : WF (insertChar s t) := by
  obtain ⟨hr, hc⟩ := h
  unfold curLine at hc
  simp only [insertChar, curLine]
  refine WF_mk _ _ _ (by simpa [List.length_set] using hr) ?_
  rw [getD_set_self _ _ _ _ hr]
  simp only [List.length_append, List.length_take, List.length_drop]
  omega

theorem WF_insertNewline (s : EditorState) (h : WF s) : WF (insertNewline s) := by
  obtain ⟨hr, hc⟩ := h
  unfold curLine at hc
  simp only [insertNewline, curLine]
  refine WF_mk _ _ _ ?_ (Nat.zero_le _)
  simp only [List.length_append, List.length_take, List.length_drop, List.length_cons,
    List.length_nil]
  omega

theorem WF_backspace (s : EditorState) (h : WF s) : WF (backspace s) := by
  obtain ⟨hr, hc⟩ := h
  unfold curLine at hc
  simp only [backspace, curLine]
  split
  · refine WF_mk _ _ _ (by simpa [List.length_set] using hr) ?_
    rw [getD_set_self _ _ _ _ hr]
    simp only [List.length_append, List.length_take, List.length_drop]
    omega
  · split
    · rename_i hc0 hr0
      have hlen : (s.lines.take (s.cursor.row - 1)).length = s.cursor.row - 1 := by
        simp only [List.length_take]; omega
      refine WF_mk _ _ _ ?_ ?_
      · simp only [List.length_append, List.length_take, List.length_cons, List.length_nil,
          List.length_drop]
        omega
      · rw [getD_mid3 _ _ _ _ _ hlen]
        simp only [List.length_append]
        omega
    · exact ⟨hr, hc⟩

theorem WF_deleteChar (s : EditorState) (h : WF s) : WF (deleteChar s) := by
  obtain ⟨hr, hc⟩ := h
  unfold curLine at hc
  simp only [deleteChar, curLine]
  split
  · rename_i hlt
    refine WF_mk' _ _ (by simpa [List.length_set] using hr) ?_
    rw [getD_set_self _ _ _ _ hr]
    simp only [List.length_append, List.length_take, List.length_drop]
    omega
  · split
    · rename_i hge hrow
      have hlen : (s.lines.take s.cursor.row).length = s.cursor.row := by
        simp only [List.length_take]; omega
      refine WF_mk' _ _ ?_ ?_
      · simp only [List.length_append, List.length_take, List.length_cons, List.length_nil,
          List.length_drop]
        omega
      · rw [getD_mid3 _ _ _ _ _ hlen]
        simp only [List.length_append]
        omega
    · exact ⟨hr, hc⟩

theorem WF_deleteWord (s : EditorState) (h : WF s) : WF (deleteWord s) := by
  obtain ⟨hr, hc⟩ := h
  have hWF : WF s := ⟨hr, hc⟩
  unfold curLine at hc
  simp only [deleteWord, curLine]
  split
  · exact WF_deleteChar s hWF
  · split
    · exact hWF
    · refine WF_mk' _ _ (by simpa [List.length_set] using hr) ?_
      rw [getD_set_self _ _ _ _ hr]
      have hf := fmatchLen_le ((s.lines.getD s.cursor.row []).drop s.cursor.col)
      simp only [List.length_drop] at hf
      simp only [List.length_append, List.length_take, List.length_drop]
      omega

theorem WF_deleteWordBackward (s : EditorState) (h : WF s) : WF (deleteWordBackward s) := by
  obtain ⟨hr, hc⟩ := h
  have hWF : WF s := ⟨hr, hc⟩
  unfold curLine at hc
  simp only [deleteWordBackward, curLine]
  split
  · exact WF_backspace s hWF
  · split
    · exact hWF
    · refine WF_mk _ _ _ (by simpa [List.length_set] using hr) ?_
      rw [getD_set_self _ _ _ _ hr]
      have hb := bmatchLen_le ((s.lines.getD s.cursor.row []).take s.cursor.col)
      simp only [List.length_take] at hb
      simp only [List.length_append, List.length_take, List.length_drop]
      omega

theorem WF_moveLeft (s : EditorState) (h : WF s) : WF (moveLeft s) := by
  obtain ⟨hr, hc⟩ := h
  have hWF : WF s := ⟨hr, hc⟩
  unfold curLine at hc
  simp only [moveLeft, curLine]
  split
  · exact WF_mk _ _ _ hr (by omega)
  · split
    · exact WF_mk _ _ _ (by omega) (Nat.le_refl _)
    · exact hWF

theorem WF_moveRight (s : EditorState) (h : WF s) : WF (moveRight s) := by
  obtain ⟨hr, hc⟩ := h
  have hWF : WF s := ⟨hr, hc⟩
  unfold curLine at hc
  simp only [moveRight, curLine]
  split
  · rename_i hlt
    exact WF_mk _ _ _ hr (by omega)
  · split
    · rename_i hge hrow
      exact WF_mk _ _ _ hrow (Nat.zero_le _)
    · exact hWF

theorem WF_moveUp (s : EditorState) (h : WF s) : WF (moveUp s) := by
  obtain ⟨hr, hc⟩ := h
  have hWF : WF s := ⟨hr, hc⟩
  simp only [moveUp, curLine]
  split
  · exact WF_mk _ _ _ (by omega) (Nat.min_le_right _ _)
  · exact hWF

theorem WF_moveDown (s : EditorState) (h : WF s) : WF (moveDown s) := by
  obtain ⟨hr, hc⟩ := h
  have hWF : WF s := ⟨hr, hc⟩
  simp only [moveDown, curLine]
  split
  · rename_i hrow
    exact WF_mk _ _ _ hrow (Nat.min_le_right _ _)
  · exact hWF

theorem WF_moveHome (s : EditorState) (h : WF s) : WF (moveHome s) := by
  obtain ⟨hr, _⟩ := h
  exact ⟨hr, Nat.zero_le _⟩

theorem WF_moveEnd (s : EditorState) (h : WF s) : WF (moveEnd s) := by
  obtain ⟨hr, _⟩ := h
  exact ⟨hr, Nat.le_refl _⟩

theorem WF_moveBufferStart (s : EditorState) (h : WF s) : WF (moveBufferStart s) := by
  obtain ⟨hr, _⟩ := h
  simp only [moveBufferStart]
  exact WF_mk _ _ _ (by omega) (Nat.zero_le _)

theorem WF_moveBufferEnd (s : EditorState) (h : WF s) : WF (moveBufferEnd s) := by
  obtain ⟨hr, _⟩ := h
  simp only [moveBufferEnd]
  exact WF_mk _ _ _ (by omega) (Nat.le_refl _)

theorem WF_moveWordLeft (s : EditorState) (h : WF s) : WF (moveWordLeft s) := by
  obtain ⟨hr, hc⟩ := h
  have hWF : WF s := ⟨hr, hc⟩
  unfold curLine at hc
  simp only [moveWordLeft, curLine]
  split
  · exact WF_mk _ _ _ (by omega) (Nat.le_refl _)
  · split
    · exact hWF
    · exact WF_mk _ _ _ hr (by omega)

theorem WF_moveWordRight (s : EditorState) (h : WF s) : WF (moveWordRight s) := by
  obtain ⟨hr, hc⟩ := h
  have hWF : WF s := ⟨hr, hc⟩
  unfold curLine at hc
  simp only [moveWordRight, curLine]
  split
  · rename_i hrow
    exact WF_mk _ _ _ hrow.2 (Nat.zero_le _)
  · split
    · exact hWF
    · refine WF_mk _ _ _ hr ?_
      have hf := fmatchLen_le ((s.lines.getD s.cursor.row []).drop s.cursor.col)
      simp only [List.length_drop] at hf
      omega

theorem WF_applyOp (op : EditOp) (s : EditorState) (h : WF s) : WF (applyOp op s) := by
  cases op with
  | insertChar t => exact WF_insertChar s t h
  | insertNewline => exact WF_insertNewline s h
  | backspace => exact WF_backspace s h
  | deleteChar => exact WF_deleteChar s h
  | deleteWord => exact WF_deleteWord s h
  | deleteWordBackward => exact WF_deleteWordBackward s h
  | moveLeft => exact WF_moveLeft s h
  | moveRight => exact WF_moveRight s h
  | moveUp => exact WF_moveUp s h
  | moveDown => exact WF_moveDown s h
  | moveHome => exact WF_moveHome s h
  | moveEnd => exact WF_moveEnd s h
  | moveBufferStart => exact WF_moveBufferStart s h
  | moveBufferEnd => exact WF_moveBufferEnd s h
  | moveWordLeft => exact WF_moveWordLeft s h
  | moveWordRight => exact WF_moveWordRight s h

theorem WF_foldl (ops : List EditOp) (s : EditorState) (h : WF s) :
    WF (ops.foldl (fun st op => applyOp op st) s) := by
  induction ops generalizing s with
  | nil => exact h
  | cons op rest ih => exact ih (applyOp op s) (WF_applyOp op s h)

theorem split2 {α} (l : List α) (n : Nat) (d : α) (h : n + 1 < l.length) :
    l.take n ++ [l.getD n d, l.getD (n + 1) d] ++ l.drop (n + 2) = l := by
  have h1 : l.drop n = l.getD n d :: l.drop (n + 1) := drop_eq_getD_cons l n d (by omega)
  have h2 : l.drop (n + 1) = l.getD (n + 1) d :: l.drop (n + 2) := drop_eq_getD_cons l (n + 1) d h
  calc l.take n ++ [l.getD n d, l.getD (n + 1) d] ++ l.drop (n + 2)
      = l.take n ++ (l.getD n d :: (l.getD (n + 1) d :: l.drop (n + 2))) := by simp
    _ = l.take n ++ l.drop n := by rw [← h2, ← h1]
    _ = l := List.take_append_drop n l

theorem split2' {α} (l : List α) (row : Nat) (d : α) (h0 : 0 < row) (h : row < l.length) :
    l.take (row - 1) ++ [l.getD (row - 1) d, l.getD row d] ++ l.drop (row + 1) = l := by
  have e1 : row - 1 + 1 = row := by omega
  have e2 : row - 1 + 2 = row + 1 := by omega
  have hs := split2 l (row - 1) d (by omega)
  rw [e1, e2] at hs
  exact hs

theorem drop_after_mid {α} (A B : List α) (x : α) (n : Nat) (h : A.length = n) :
    (A ++ ([x] ++ B)).drop (n + 1) = B := by
  subst h
  rw [← List.append_assoc]
  rw [List.drop_left' (by simp)]

theorem wb_roundtrip (s : EditorState) (h : WF s) :
    reinsertDeleted (deleteWordBackward s) (wbDeleted s) = s := by
  obtain ⟨hr, hc⟩ := h
  obtain ⟨lines, row, col⟩ := s
  simp only [curLine] at hr hc
  simp only [wbDeleted, deleteWordBackward, curLine]
  split
  · -- line-boundary case: the deleted material is the line separator
    rename_i hbk
    obtain ⟨hc0, hr0⟩ := hbk
    subst hc0
    simp only [backspace, curLine]
    split
    · rename_i hlt; exact absurd hlt (by omega)
    · simp only [reinsertDeleted, insertNewline, curLine]
      have hA : (lines.take (row - 1)).length = row - 1 := by
        rw [List.length_take]; omega
      rw [getD_mid3 _ _ _ _ _ hA]
      rw [List.take_left, List.drop_left]
      have hassoc : lines.take (row - 1) ++ [lines.getD (row - 1) [] ++ lines.getD row []] ++
          lines.drop (row + 1) =
          lines.take (row - 1) ++ ([lines.getD (row - 1) [] ++ lines.getD row []] ++
            lines.drop (row + 1)) := List.append_assoc _ _ _
      rw [hassoc]
      rw [List.take_left' hA]
      rw [drop_after_mid _ _ _ _ hA]
      rw [split2' lines row [] hr0 hr]
      rw [show row - 1 + 1 = row from by omega]
  · -- within-line case (or no-op at the buffer start)
    rename_i hbk
    split
    · simp only [reinsertDeleted]
    · rename_i hne
      simp only [reinsertDeleted, insertChar, curLine]
      have hlenb : ((lines.getD row []).take col).length = col := by
        rw [List.length_take]; omega
      have hdl : bmatchLen ((lines.getD row []).take col) ≤ col := by
        have := bmatchLen_le ((lines.getD row []).take col)
        omega
      have hA : ((lines.getD row []).take (col - bmatchLen ((lines.getD row []).take col))).length
          = col - bmatchLen ((lines.getD row []).take col) := by
        rw [List.length_take]; omega
      rw [getD_set_self _ _ _ _ hr]
      rw [List.set_set]
      rw [List.take_left' hA, List.drop_left' hA]
      rw [hlenb]
      have hkey : (lines.getD row []).take (col - bmatchLen ((lines.getD row []).take col)) ++
          ((lines.getD row []).take col).drop (col - bmatchLen ((lines.getD row []).take col)) =
          (lines.getD row []).take col := by
        have ht : (lines.getD row []).take (col - bmatchLen ((lines.getD row []).take col)) =
            ((lines.getD row []).take col).take
              (col - bmatchLen ((lines.getD row []).take col)) := by
          rw [List.take_take]
          congr 1
          omega
        rw [ht]
        exact List.take_append_drop _ _
      rw [hkey, List.take_append_drop]
      rw [set_getD_self]
      have hfin : col - bmatchLen ((lines.getD row []).take col) +
          (((lines.getD row []).take col).drop
            (col - bmatchLen ((lines.getD row []).take col))).length = col := by
        rw [List.length_drop, hlenb]
        omega
      rw [hfin]

end TextBuf

namespace CliInput

theorem parseSingleKey_esc_isSome (data : List Char) (h : data.head? = some '\x1b') :
    ∃ k, parseSingleKey data = some k := by
  unfold parseSingleKey
  split_ifs <;> exact ⟨_, rfl⟩

theorem parseKeys_esc (data : List Char) (h : data.head? = some '\x1b') :
    ∃ k, parseSingleKey data = some k ∧ parseKeys data = [k] := by
  obtain ⟨k, hk⟩ := parseSingleKey_esc_isSome data h
  exact ⟨k, hk, by simp [parseKeys, hk]⟩

theorem parseSingleKey_csi (seq : List Char) :
    parseSingleKey ('\x1b' :: '[' :: seq) =
      some (parseEscapeSequence ('\x1b' :: '[' :: seq)) := by
  unfold parseSingleKey
  rw [if_neg (by simp), if_neg (by simp), if_neg (by simp), if_neg (by simp),
    if_neg (by simp), if_neg (by simp), if_neg (by simp), if_neg (by simp),
    if_pos (by simp)]

theorem parseKeys_csi_unknown (seq : List Char)
    (h1 : csiFixed seq = none) (h2 : csiUAction seq = none) :
    parseKeys ('\x1b' :: '[' :: seq) =
      [.unknown (jsonStringify ('\x1b' :: '[' :: seq))] := by
  have hseq : parseEscapeSequence ('\x1b' :: '[' :: seq) =
      .unknown (jsonStringify ('\x1b' :: '[' :: seq)) := by
    unfold parseEscapeSequence
    rw [if_pos (by simp)]
    simp only [List.drop_succ_cons, List.drop_zero, h1, h2]
  simp [parseKeys, parseSingleKey_csi, hseq]

end CliInput

namespace PM

theorem mapGet_mapDelete_self {α} (m : List (String × α)) (k : String) :
    mapGet (mapDelete m k) k = none := by
  induction m with
  | nil => rfl
  | cons p t ih =>
    simp only [mapDelete, List.filter_cons] at *
    by_cases hp : (p.1 == k) = true
    · rw [hp]
      exact ih
    · rw [Bool.not_eq_true] at hp
      rw [hp]
      simp only [Bool.not_false, if_true]
      simp only [mapGet, List.find?, hp]
      exact ih

theorem mapDelete_eq_self_of_none {α} (m : List (String × α)) (k : String)
    (h : mapGet m k = none) : mapDelete m k = m := by
  induction m with
  | nil => rfl
  | cons p t ih =>
    by_cases hp : (p.1 == k) = true
    · simp [mapGet, List.find?, hp] at h
    · rw [Bool.not_eq_true] at hp
      have ht : mapGet t k = none := by
        simp only [mapGet, List.find?, hp] at h ⊢
        exact h
      simp only [mapDelete, List.filter_cons, hp, Bool.not_false, if_true]
      rw [show List.filter (fun q => !(q.1 == k)) t = t from ih ht]

theorem jsFindIndexN_eq_none_iff {α} (p : α → Bool) (l : List α) :
    jsFindIndexN p l = none ↔ ∀ a ∈ l, p a = false := by
  induction l with
  | nil => simp [jsFindIndexN]
  | cons x t ih =>
    by_cases hx : p x = true
    · simp [jsFindIndexN, hx]
    · rw [Bool.not_eq_true] at hx
      simp only [jsFindIndexN, hx, Bool.false_eq_true, if_false, Option.map_eq_none', ih,
        List.mem_cons]
      constructor
      · intro hall a ha
        rcases ha with rfl | ha
        · exact hx
        · exact hall a ha
      · intro hall a ha
        exact hall a (Or.inr ha)

theorem jsFindIndexN_some_spec {α} (p : α → Bool) (l : List α) (n : Nat)
    (h : jsFindIndexN p l = some n) :
    n < l.length ∧ ∃ a, l.get? n = some a ∧ p a = true := by
  induction l generalizing n with
  | nil => simp [jsFindIndexN] at h
  | cons x t ih =>
    by_cases hx : p x = true
    · simp only [jsFindIndexN, hx, if_true, Option.some.injEq] at h
      subst h
      exact ⟨by simp, x, rfl, hx⟩
    · rw [Bool.not_eq_true] at hx
      simp only [jsFindIndexN, hx, Bool.false_eq_true, if_false, Option.map_eq_some'] at h
      obtain ⟨m, hm, rfl⟩ := h
      obtain ⟨hlt, a, hget, hpa⟩ := ih m hm
      exact ⟨by simpa using Nat.succ_lt_succ hlt, a, by simpa using hget, hpa⟩

theorem get?_some_lt {α} (l : List α) (n : Nat) (a : α) (h : l.get? n = some a) :
    n < l.length := by
  by_contra hle
  rw [List.get?_eq_none.mpr (by omega)] at h
  cases h

theorem not_mem_map_eraseIdx {α β} (f : α → β) (l : List α) (n : Nat) (a : α)
    (hnd : (l.map f).Nodup) (hget : l.get? n = some a) :
    f a ∉ (l.eraseIdx n).map f := by
  induction l generalizing n with
  | nil => simp at hget
  | cons x t ih =>
    rw [List.map_cons, List.nodup_cons] at hnd
    cases n with
    | zero =>
      obtain rfl : x = a := by simpa using hget
      simpa [List.eraseIdx] using hnd.1
    | succ m =>
      have hget' : t.get? m = some a := by simpa using hget
      have hmem : f a ∈ t.map f := List.mem_map_of_mem f (List.get?_mem hget')
      have hax : ¬(f a = f x) := fun he => hnd.1 (he ▸ hmem)
      simp only [List.eraseIdx, List.map_cons, List.mem_cons]
      push_neg
      exact ⟨hax, ih m hnd.2 hget'⟩

theorem findIndexInt_eq_neg_one (q : List PendingPermission) (toolUseId : String)
    (h : toolUseId ∉ q.map (·.toolUseId)) : findIndexInt q toolUseId = -1 := by
  have hall : ∀ p ∈ q, (p.toolUseId == toolUseId) = false := by
    intro p hp
    simp only [beq_eq_false_iff_ne]
    exact fun he => h (he ▸ List.mem_map_of_mem _ hp)
  simp [findIndexInt, (jsFindIndexN_eq_none_iff _ _).mpr hall]

theorem showCurrent_queue (s : PMState) : (showCurrent s).queue = s.queue := by
  simp only [showCurrent]
  split <;> rfl

theorem showCurrent_currentIndex (s : PMState) :
    (showCurrent s).currentIndex = s.currentIndex := by
  simp only [showCurrent]
  split <;> rfl

theorem showCurrent_decisions (s : PMState) :
    (showCurrent s).decisions = s.decisions := by
  simp only [showCurrent]
  split <;> rfl

theorem showCurrent_waiters (s : PMState) : (showCurrent s).waiters = s.waiters := by
  simp only [showCurrent]
  split <;> rfl

theorem removeAtIndex_guard (s : PMState) (idx : Int)
    (h : idx < 0 ∨ (s.queue.length : Int) ≤ idx) : removeAtIndex s idx = s := by
  simp only [removeAtIndex]
  rw [if_pos h]

theorem removeAtIndex_decisions (s : PMState) (idx : Int) :
    (removeAtIndex s idx).decisions = s.decisions := by
  simp only [removeAtIndex]
  split
  · rfl
  · split
    · rfl
    · rw [showCurrent_decisions]

theorem removeAtIndex_waiters (s : PMState) (idx : Int) :
    (removeAtIndex s idx).waiters = s.waiters := by
  simp only [removeAtIndex]
  split
  · rfl
  · split
    · rfl
    · rw [showCurrent_waiters]

theorem removeAtIndex_queue (s : PMState) (idx : Int) (h0 : 0 ≤ idx)
    (h1 : idx < (s.queue.length : Int)) :
    (removeAtIndex s idx).queue = s.queue.eraseIdx idx.toNat := by
  simp only [removeAtIndex]
  rw [if_neg (by omega)]
  split
  · rfl
  · rw [showCurrent_queue]

theorem queue_isEmpty_false (s : PMState) (h : s.queue ≠ []) :
    s.queue.isEmpty = false := by
  cases hc : s.queue
  · exact absurd hc h
  · rfl

theorem handleKey_consumed (s : PMState) (k : CliInput.KeyAction) (h : s.queue ≠ []) :
    (handleKey s k).2.1 = true := by
  simp only [handleKey, queue_isEmpty_false s h, Bool.false_eq_true, if_false]
  cases k <;> dsimp only <;> first | rfl | (split_ifs <;> rfl)

theorem handleKey_swallow_other (s : PMState) (k : CliInput.KeyAction)
    (h : s.queue ≠ []) (hk : isPMActionKey k = false) :
    handleKey s k = (s, true, []) := by
  simp only [handleKey, queue_isEmpty_false s h, Bool.false_eq_true, if_false]
  cases k <;> simp_all [isPMActionKey]

theorem handleKey_swallow_char (s : PMState) (v : List Char) (h : s.queue ≠ [])
    (h1 : v ≠ ['y']) (h2 : v ≠ ['Y']) (h3 : v ≠ ['n']) (h4 : v ≠ ['N']) :
    handleKey s (.char v) = (s, true, []) := by
  simp only [handleKey, queue_isEmpty_false s h, Bool.false_eq_true, if_false]
  rw [if_neg (by tauto), if_neg (by tauto)]

theorem resolveCurrentItem_events (s : PMState) (allowed : Bool) (reason : Option String) :
    ∀ e ∈ (resolveCurrentItem s allowed reason).2,
      evResolvedId e = none ∨
        ∃ cur, s.queue[s.currentIndex]? = some cur ∧
          evResolvedId e = some cur.toolUseId := by
  simp only [resolveCurrentItem]
  split
  · simp
  · rename_i cur hcur
    split
    · rename_i winput hw
      intro e he
      simp only [List.mem_cons, List.not_mem_nil, or_false] at he
      rcases he with rfl | rfl
      · exact Or.inl rfl
      · exact Or.inr ⟨cur, hcur, rfl⟩
    · intro e he
      simp only [List.mem_cons, List.not_mem_nil, or_false] at he
      subst he
      exact Or.inl rfl

theorem handleKey_events (s : PMState) (k : CliInput.KeyAction) :
    ∀ e ∈ (handleKey s k).2.2,
      evResolvedId e = none ∨
        ∃ cur, s.queue[s.currentIndex]? = some cur ∧
          evResolvedId e = some cur.toolUseId := by
  by_cases hq : s.queue.isEmpty
  · simp [handleKey, hq]
  · rw [Bool.not_eq_true] at hq
    simp only [handleKey, hq, Bool.false_eq_true, if_false]
    cases k <;> dsimp only <;> try simp
    · split_ifs
      · exact resolveCurrentItem_events s true none
      · exact resolveCurrentItem_events s false none
      · simp
    · split_ifs <;> simp
    · split_ifs <;> simp

theorem resolveCurrentItem_waiter_facts (s : PMState) (cur : PendingPermission)
    (winput : ToolInput) (allowed : Bool) (reason : Option String)
    (hcur : s.queue[s.currentIndex]? = some cur)
    (hw : mapGet s.waiters cur.toolUseId = some winput) :
    resolveCurrentItem s allowed reason =
      (removeAtIndex
          { s with timer := none, waiters := mapDelete s.waiters cur.toolUseId }
          (s.currentIndex : Int),
        [PMEvent.info ("Allow? " ++ cur.label ++ ": " ++
            (if allowed then "allowed"
              else if reason == some "timed out" then "timed out" else "denied")),
          PMEvent.resolved cur.toolUseId (toResult allowed winput reason)]) := by
  simp only [resolveCurrentItem, hcur, hw]

theorem resolveCurrentItem_nowaiter_facts (s : PMState) (cur : PendingPermission)
    (allowed : Bool) (reason : Option String)
    (hcur : s.queue[s.currentIndex]? = some cur)
    (hw : mapGet s.waiters cur.toolUseId = none) :
    resolveCurrentItem s allowed reason =
      (removeAtIndex
          { s with timer := none, decisions := mapSet s.decisions cur.toolUseId allowed }
          (s.currentIndex : Int),
        [PMEvent.info ("Allow? " ++ cur.label ++ ": " ++
            (if allowed then "allowed"
              else if reason == some "timed out" then "timed out" else "denied"))]) := by
  simp only [resolveCurrentItem, hcur, hw]

theorem handleResult_decisions (s : PMState) (toolUseId : String) :
    (handleResult s toolUseId).decisions = mapDelete s.decisions toolUseId := by
  unfold handleResult
  rw [removeAtIndex_decisions]

theorem handleResult_untracked (s : PMState) (toolUseId : String)
    (hq : toolUseId ∉ s.queue.map (·.toolUseId))
    (hd : mapGet s.decisions toolUseId = none) :
    handleResult s toolUseId = s := by
  unfold handleResult
  rw [mapDelete_eq_self_of_none _ _ hd, findIndexInt_eq_neg_one _ _ hq]
  rw [removeAtIndex_guard _ _ (Or.inl (by omega))]

theorem handleResult_queue_not_mem (s : PMState) (toolUseId : String)
    (hnd : (s.queue.map (·.toolUseId)).Nodup) :
    toolUseId ∉ (handleResult s toolUseId).queue.map (·.toolUseId) := by
  unfold handleResult
  unfold findIndexInt
  cases hfi : jsFindIndexN (fun p => p.toolUseId == toolUseId) s.queue with
  | none =>
    simp only [hfi]
    rw [removeAtIndex_guard _ _ (Or.inl (by omega))]
    intro hmem
    obtain ⟨a, ha, hid⟩ := List.mem_map.mp hmem
    have := (jsFindIndexN_eq_none_iff _ _).mp hfi a ha
    simp [hid] at this
  | some n =>
    simp only [hfi]
    obtain ⟨hlt, a, hget, hpa⟩ := jsFindIndexN_some_spec _ _ _ hfi
    have hid : a.toolUseId = toolUseId := by simpa using hpa
    rw [removeAtIndex_queue _ _ (by omega) (by exact_mod_cast hlt)]
    simp only [Int.toNat_ofNat]
    exact hid ▸ not_mem_map_eraseIdx (·.toolUseId) s.queue n a hnd hget

theorem handleResult_idem (s : PMState) (toolUseId : String)
    (hnd : (s.queue.map (·.toolUseId)).Nodup) :
    handleResult (handleResult s toolUseId) toolUseId = handleResult s toolUseId := by
  apply handleResult_untracked
  · exact handleResult_queue_not_mem s toolUseId hnd
  · rw [handleResult_decisions]
    exact mapGet_mapDelete_self _ _

end PM

/-- C5: for every sequence of Text Buffer operations (insert
character/string, insert newline, backspace, forward-delete, word-delete
forward/backward, and all cursor motions) applied to the initial
single-empty-line state, the resulting state has a non-empty list of
lines and a cursor satisfying `0 ≤ row < len(lines)` and
`0 ≤ col ≤ len(lines[row])`. -/
theorem C5_editor_cursor_invariant (ops : List TextBuf.EditOp) :
    (ops.foldl (fun st op => TextBuf.applyOp op st) TextBuf.createEditor).lines ≠ [] ∧
    (ops.foldl (fun st op => TextBuf.applyOp op st) TextBuf.createEditor).cursor.row <
      (ops.foldl (fun st op => TextBuf.applyOp op st) TextBuf.createEditor).lines.length ∧
    (ops.foldl (fun st op => TextBuf.applyOp op st) TextBuf.createEditor).cursor.col ≤
      ((ops.foldl (fun st op => TextBuf.applyOp op st) TextBuf.createEditor).lines.getD
        (ops.foldl (fun st op => TextBuf.applyOp op st) TextBuf.createEditor).cursor.row
        []).length := by
  have h := TextBuf.WF_foldl ops TextBuf.createEditor TextBuf.WF_createEditor
  exact ⟨List.ne_nil_of_length_pos (Nat.lt_of_le_of_lt (Nat.zero_le _) h.1), h.1, h.2⟩

/-- C6: applying delete-word-backward and then re-inserting the deleted
material at the resulting cursor position restores the original line
content (the round trip in fact restores the whole state, cursor
included, also at a line boundary where the deleted material is the line
separator). -/
theorem C6_word_delete_roundtrip (s : TextBuf.EditorState) (h : TextBuf.WF s) :
    TextBuf.reinsertDeleted (TextBuf.deleteWordBackward s) (TextBuf.wbDeleted s) = s :=
  TextBuf.wb_roundtrip s h

/-- Witness for C6 at the concrete state with one line `ab cd` and the
cursor at its end. -/
theorem C6_word_delete_roundtrip_witness :
    TextBuf.WF ⟨[['a', 'b', ' ', 'c', 'd']], ⟨0, 5⟩⟩ ∧
    TextBuf.reinsertDeleted
        (TextBuf.deleteWordBackward ⟨[['a', 'b', ' ', 'c', 'd']], ⟨0, 5⟩⟩)
        (TextBuf.wbDeleted ⟨[['a', 'b', ' ', 'c', 'd']], ⟨0, 5⟩⟩) =
      ⟨[['a', 'b', ' ', 'c', 'd']], ⟨0, 5⟩⟩ :=
  ⟨⟨by decide, by decide⟩, C6_word_delete_roundtrip _ ⟨by decide, by decide⟩⟩

/-- C8: `cancelAll` empties the queue and the decision cache, clears the
waiters and the countdown timer, resets the index, and resolves each
previously registered waiter's promise with the `Cancelled` outcome,
which is distinct from the `User denied` outcome of a manual denial. -/
theorem C8_cancel_all (s : PM.PMState) :
    (PM.cancelAll s).1.queue = [] ∧
    (PM.cancelAll s).1.decisions = [] ∧
    (PM.cancelAll s).1.waiters = [] ∧
    (PM.cancelAll s).1.timer = none ∧
    (PM.cancelAll s).1.currentIndex = 0 ∧
    (PM.cancelAll s).2 =
      s.waiters.map (fun w => PM.PMEvent.resolved w.1 (.deny "Cancelled")) ∧
    (PM.PermissionResult.deny "Cancelled" ≠ PM.PermissionResult.deny "User denied") :=
  ⟨rfl, rfl, rfl, rfl, rfl, rfl, by decide⟩

/-- C2 counterexample: after enqueuing A, B, C, pressing right twice and
denying C, the queue is indeed `[A, B]` but the current item is not A —
the index clamps to the new last element, B. -/
theorem C2_deny_last_counterexample :
    PM.c2Final.queue.map (·.toolUseId) = ["idA", "idB"] ∧
    ¬((PM.c2Final.queue[PM.c2Final.currentIndex]?).map (·.toolUseId) = some "idA") := by
  decide

/-- C2 amended: in the A, B, C / right, right, deny-C scenario the queue
becomes `[A, B]` with B (the new last element) as the current item, and B
is displayed next with a fresh countdown reset to its tool's full timeout
(30 s). -/
theorem C2_deny_last_amended :
    PM.c2Final.queue.map (·.toolUseId) = ["idA", "idB"] ∧
    PM.c2Final.currentIndex = 1 ∧
    (PM.c2Final.queue[PM.c2Final.currentIndex]?).map (·.toolUseId) = some "idB" ∧
    PM.c2Final.timer = some (⟨"idB", "Bash", [("description", "B")], "Bash: B"⟩, 30) ∧
    PM.c2Final.app.promptLabel = some "[2/2] Allow? Bash: B (y/n) [30s]" ∧
    PM.ceilSeconds (PM.getTimeoutMs "Bash") = 30 := by
  decide

/-- C4: the code never supplies the countdown to `AppState.prompting`
(the call sites in `showCurrent` and the tick pass only the label), so
even with 10 s left on a 30 s countdown and a drowning threshold of 15 s
the stored remaining-seconds value is `null`, the `drowning` flag is
false, and the status line renders steadily instead of flashing. -/
theorem C4_drowning_never_renders :
    PM.c4Scenario.timer = some (⟨"t1", "Bash", [], "Bash"⟩, 10) ∧
    PM.c4Scenario.app.phase = PM.AppPhase.prompting ∧
    PM.c4Scenario.app.promptRemaining = none ∧
    PM.drowningFlag (some 15) PM.c4Scenario.app = false ∧
    PM.statusInverse (some 15) PM.c4Scenario.app = true := by
  decide

/-- C9 counterexample: the control character `0x01` is unrecognized, yet
the parser drops it silently (empty action list) instead of classifying
it as `unknown`. -/
theorem C9_unknown_counterexample :
    CliInput.parseSingleKey ['\x01'] = none ∧
    CliInput.parseKeys ['\x01'] = [] := by
  decide

/-- C9 amended: the key parser is a total function; every input beginning
with ESC yields exactly one action, and an ESC-[ sequence matching no
known CSI tail is classified as `unknown` carrying the JSON-stringified
raw input.  (Unrecognized inputs not beginning with ESC are silently
dropped, producing no action — see the counterexample.) -/
theorem C9_unknown_amended :
    (∀ data : List Char, data.head? = some '\x1b' →
      ∃ k, CliInput.parseSingleKey data = some k ∧ CliInput.parseKeys data = [k]) ∧
    (∀ seq : List Char, CliInput.csiFixed seq = none → CliInput.csiUAction seq = none →
      CliInput.parseKeys ('\x1b' :: '[' :: seq) =
        [.unknown (CliInput.jsonStringify ('\x1b' :: '[' :: seq))]) :=
  ⟨CliInput.parseKeys_esc, CliInput.parseKeys_csi_unknown⟩

/-- Witness for C9 at the concrete unrecognized sequence `ESC [ Z`. -/
theorem C9_unknown_amended_witness :
    (['\x1b', '[', 'Z'].head? = some '\x1b') ∧
    CliInput.csiFixed ['Z'] = none ∧
    CliInput.csiUAction ['Z'] = none ∧
    CliInput.parseKeys ['\x1b', '[', 'Z'] =
      [.unknown (CliInput.jsonStringify ['\x1b', '[', 'Z'])] :=
  ⟨rfl, by decide, by decide, C9_unknown_amended.2 ['Z'] (by decide) (by decide)⟩

/-- C7: invoking the removal path for an id that is no longer tracked is
a safe no-op — the whole state (queue, current index, decision cache,
waiters, timer, phase) is unchanged; a second `handleResult` for an id
already removed is a no-op; and `removeAtIndex` with an out-of-range
index returns the state unchanged. -/
theorem C7_removal_untracked_noop (s : PM.PMState) (toolUseId : String) :
    (toolUseId ∉ s.queue.map (·.toolUseId) → PM.mapGet s.decisions toolUseId = none →
      PM.handleResult s toolUseId = s) ∧
    ((s.queue.map (·.toolUseId)).Nodup →
      PM.handleResult (PM.handleResult s toolUseId) toolUseId =
        PM.handleResult s toolUseId) ∧
    (∀ idx : Int, idx < 0 ∨ (s.queue.length : Int) ≤ idx → PM.removeAtIndex s idx = s) :=
  ⟨fun hq hd => PM.handleResult_untracked s toolUseId hq hd,
   fun hnd => PM.handleResult_idem s toolUseId hnd,
   fun idx h => PM.removeAtIndex_guard s idx h⟩

/-- Witness for C7 at a concrete state with one queued item and an
untracked id `zz`. -/
theorem C7_removal_untracked_noop_witness :
    ("zz" ∉ PM.c1State.queue.map (·.toolUseId)) ∧
    PM.mapGet PM.c1State.decisions "zz" = none ∧
    (PM.c1State.queue.map (·.toolUseId)).Nodup ∧
    PM.handleResult PM.c1State "zz" = PM.c1State ∧
    PM.handleResult (PM.handleResult PM.c1State "id2") "id2" =
      PM.handleResult PM.c1State "id2" ∧
    PM.removeAtIndex PM.c1State (-1) = PM.c1State :=
  ⟨by decide, by decide, by decide,
   (C7_removal_untracked_noop PM.c1State "zz").1 (by decide) (by decide),
   (C7_removal_untracked_noop PM.c1State "id2").2.1 (by decide),
   (C7_removal_untracked_noop PM.c1State "zz").2.2 (-1) (by decide)⟩

/-- C1: (a) if the user decided before the backend called `resolve`, then
`resolve` returns the cached decision immediately, deletes the
`DecisionCache` entry (so a second `resolve` for the same id registers a
waiter instead of observing it), and touches neither queue nor waiters;
(b) if the backend called `resolve` first (a waiter is registered), the
user's decision resolves that waiter directly and stores nothing in the
`DecisionCache`. -/
theorem C1_decision_cache_and_waiter (s : PM.PMState) (toolUseId : String)
    (input input2 winput : PM.ToolInput) (d : Bool) (cur : PM.PendingPermission)
    (allowed : Bool) :
    (PM.mapGet s.decisions toolUseId = some d →
      (PM.resolve s toolUseId input).2 = .immediate (PM.toResult d input none) ∧
      (PM.resolve s toolUseId input).1.queue = s.queue ∧
      (PM.resolve s toolUseId input).1.waiters = s.waiters ∧
      PM.mapGet (PM.resolve s toolUseId input).1.decisions toolUseId = none ∧
      (PM.resolve (PM.resolve s toolUseId input).1 toolUseId input2).2 = .registered) ∧
    (s.queue[s.currentIndex]? = some cur → cur.toolUseId = toolUseId →
      PM.mapGet s.waiters toolUseId = some winput →
      PM.mapGet s.decisions toolUseId = none →
      (PM.PMEvent.resolved toolUseId (PM.toResult allowed winput none) ∈
        (PM.resolveCurrentItem s allowed none).2) ∧
      PM.mapGet (PM.resolveCurrentItem s allowed none).1.decisions toolUseId = none ∧
      PM.mapGet (PM.resolveCurrentItem s allowed none).1.waiters toolUseId = none) := by
  constructor
  · intro hd
    have h1 : PM.resolve s toolUseId input =
        ({ s with decisions := PM.mapDelete s.decisions toolUseId },
          .immediate (PM.toResult d input none)) := by
      simp only [PM.resolve, hd]
    rw [h1]
    refine ⟨rfl, rfl, rfl, PM.mapGet_mapDelete_self _ _, ?_⟩
    simp only [PM.resolve, PM.mapGet_mapDelete_self]
  · intro hcur hid hw hdec
    subst hid
    have hfacts := PM.resolveCurrentItem_waiter_facts s cur winput allowed none hcur hw
    rw [hfacts]
    refine ⟨by simp, ?_, ?_⟩
    · rw [PM.removeAtIndex_decisions]
      exact hdec
    · rw [PM.removeAtIndex_waiters]
      exact PM.mapGet_mapDelete_self _ _

/-- Witness for C1 at a concrete state with a cached decision for `id1`
and a registered waiter for the displayed item `id2`. -/
theorem C1_decision_cache_and_waiter_witness :
    PM.mapGet PM.c1State.decisions "id1" = some true ∧
    PM.c1State.queue[PM.c1State.currentIndex]? =
      some ⟨"id2", "Bash", [], "Bash"⟩ ∧
    PM.mapGet PM.c1State.waiters "id2" = some [("a", "b")] ∧
    PM.mapGet PM.c1State.decisions "id2" = none ∧
    ((PM.resolve PM.c1State "id1" []).2 = .immediate (PM.toResult true [] none) ∧
      (PM.resolve PM.c1State "id1" []).1.queue = PM.c1State.queue ∧
      (PM.resolve PM.c1State "id1" []).1.waiters = PM.c1State.waiters ∧
      PM.mapGet (PM.resolve PM.c1State "id1" []).1.decisions "id1" = none ∧
      (PM.resolve (PM.resolve PM.c1State "id1" []).1 "id1" []).2 = .registered) ∧
    ((PM.PMEvent.resolved "id2" (PM.toResult false [("a", "b")] none) ∈
        (PM.resolveCurrentItem PM.c1State false none).2) ∧
      PM.mapGet (PM.resolveCurrentItem PM.c1State false none).1.decisions "id2" = none ∧
      PM.mapGet (PM.resolveCurrentItem PM.c1State false none).1.waiters "id2" = none) :=
  ⟨by decide, by decide, by decide, by decide,
   (C1_decision_cache_and_waiter PM.c1State "id1" [] [] [("a", "b")] true
      ⟨"id2", "Bash", [], "Bash"⟩ false).1 (by decide),
   (C1_decision_cache_and_waiter PM.c1State "id2" [] [] [("a", "b")] true
      ⟨"id2", "Bash", [], "Bash"⟩ false).2 (by decide) (by decide) (by decide) (by decide)⟩

/-- C3: when the displayed item's countdown (with a registered waiter)
reaches zero, the tick routes through `resolveCurrentItem` — the same
removal path as a manual decision — and emits exactly one resolution for
the item: a denial with the `Permission timed out` message,
distinguishable from the `User denied` message of a manual denial.
Afterwards the id is no longer queued or waited on, so a user decision
processed in the same tick cannot resolve it again. -/
theorem C3_timeout_exactly_once (s : PM.PMState) (cur : PM.PendingPermission)
    (winput : PM.ToolInput)
    (ht : s.timer = some (cur, 1))
    (hcur : s.queue[s.currentIndex]? = some cur)
    (hw : PM.mapGet s.waiters cur.toolUseId = some winput)
    (hnd : (s.queue.map (·.toolUseId)).Nodup) :
    PM.tick s =
      PM.resolveCurrentItem { s with timer := some (cur, 0) } false (some "timed out") ∧
    (PM.tick s).2 =
      [PM.PMEvent.info ("Allow? " ++ cur.label ++ ": " ++ "timed out"),
        PM.PMEvent.resolved cur.toolUseId (.deny "Permission timed out")] ∧
    (("Permission timed out" : String) ≠ "User denied") ∧
    cur.toolUseId ∉ (PM.tick s).1.queue.map (·.toolUseId) ∧
    PM.mapGet (PM.tick s).1.waiters cur.toolUseId = none ∧
    (∀ k, ∀ e ∈ (PM.handleKey (PM.tick s).1 k).2.2,
      PM.evResolvedId e ≠ some cur.toolUseId) := by
  have hlt : s.currentIndex < s.queue.length := (List.getElem?_eq_some.mp hcur).1
  have htick : PM.tick s =
      PM.resolveCurrentItem { s with timer := some (cur, 0) } false (some "timed out") := by
    simp [PM.tick, ht]
  have hfacts :=
    PM.resolveCurrentItem_waiter_facts { s with timer := some (cur, 0) } cur winput false
      (some "timed out") hcur hw
  have houtcome :
      (if false = true then "allowed"
        else if ((some "timed out" : Option String) == some "timed out") = true
          then "timed out" else "denied") = "timed out" := by decide
  have htres : PM.toResult false winput (some "timed out") =
      .deny "Permission timed out" := by
    simp only [PM.toResult]
    rw [if_neg (by decide), if_pos (by decide)]
  rw [houtcome, htres] at hfacts
  have hqueue : (PM.tick s).1.queue = s.queue.eraseIdx s.currentIndex := by
    rw [htick, hfacts]
    rw [PM.removeAtIndex_queue _ _ (by omega) (by exact_mod_cast hlt)]
    simp [Int.toNat_ofNat]
  have hqnotmem : cur.toolUseId ∉ (PM.tick s).1.queue.map (·.toolUseId) := by
    rw [hqueue]
    exact PM.not_mem_map_eraseIdx (·.toolUseId) s.queue s.currentIndex cur hnd
      (by rw [← List.get?_eq_getElem?] at hcur; exact hcur)
  refine ⟨htick, ?_, by decide, hqnotmem, ?_, ?_⟩
  · rw [htick, hfacts]
  · rw [htick, hfacts, PM.removeAtIndex_waiters]
    exact PM.mapGet_mapDelete_self _ _
  · intro k e he
    rcases PM.handleKey_events (PM.tick s).1 k e he with hnone | ⟨cur2, hget2, heid⟩
    · rw [hnone]
      exact fun hcontra => by cases hcontra
    · rw [heid]
      intro hcontra
      have h2 : cur2.toolUseId = cur.toolUseId := by
        simpa using hcontra
      have hmem2 : cur2 ∈ (PM.tick s).1.queue := List.getElem?_mem hget2
      exact hqnotmem (h2 ▸ List.mem_map_of_mem (·.toolUseId) hmem2)

/-- Witness for C3 at a concrete one-item state whose countdown stands at
1 s with the backend waiting. -/
theorem C3_timeout_exactly_once_witness :
    PM.c3State.timer = some (PM.c3Item, 1) ∧
    PM.c3State.queue[PM.c3State.currentIndex]? = some PM.c3Item ∧
    PM.mapGet PM.c3State.waiters PM.c3Item.toolUseId = some [] ∧
    (PM.c3State.queue.map (·.toolUseId)).Nodup ∧
    ((PM.tick PM.c3State).2 =
      [PM.PMEvent.info ("Allow? " ++ PM.c3Item.label ++ ": " ++ "timed out"),
        PM.PMEvent.resolved PM.c3Item.toolUseId (.deny "Permission timed out")] ∧
    PM.c3Item.toolUseId ∉ (PM.tick PM.c3State).1.queue.map (·.toolUseId) ∧
    PM.mapGet (PM.tick PM.c3State).1.waiters PM.c3Item.toolUseId = none ∧
    (∀ k, ∀ e ∈ (PM.handleKey (PM.tick PM.c3State).1 k).2.2,
      PM.evResolvedId e ≠ some PM.c3Item.toolUseId)) := by
  have h := C3_timeout_exactly_once PM.c3State PM.c3Item [] (by decide) (by decide)
    (by decide) (by decide)
  exact ⟨by decide, by decide, by decide, by decide, h.2.1, h.2.2.2.1, h.2.2.2.2.1, h.2.2.2.2.2⟩

/-- C10 counterexample: with an approval pending (non-empty queue), the
escape keystroke is intercepted by the orchestrator before the Permission
Manager and — when a saved composition buffer exists — replaces the Text
Buffer with it, so not every keystroke other than y/Y, n/N, left, right
is consumed by the Permission Manager, and a keystroke delivered while an
approval is pending can modify the Text Buffer. -/
theorem C10_modal_counterexample :
    Cli.c10St.permissions.queue ≠ [] ∧
    Cli.stepEditor (Cli.cliHandleKey Cli.trivialPrompts Cli.c10St .escape).1 ≠
      some Cli.c10St.editor ∧
    Cli.stepEditor (Cli.cliHandleKey Cli.trivialPrompts Cli.c10St .escape).1 =
      some ⟨[['x']], ⟨0, 1⟩⟩ := by
  decide

/-- C10 amended: while the approval queue is non-empty, every keystroke
except ctrl+c and escape (which the orchestrator intercepts first) is
consumed by the Permission Manager as a modal state — the dispatch
returns with only the permission state updated, so the Text Buffer, the
saved buffer, and the prompt manager are untouched — and of the consumed
keys, all but y/Y, n/N, left, right leave the permission state itself
unchanged. -/
theorem C10_modal_amended {Q : Type} (P : Cli.PromptsModel Q) (st : Cli.CliState Q)
    (k : CliInput.KeyAction)
    (hq : st.permissions.queue ≠ [])
    (hc : k ≠ .ctrlC) (he : k ≠ .escape) :
    Cli.cliHandleKey P st k =
      (.cont { st with permissions := (PM.handleKey st.permissions k).1 },
        (PM.handleKey st.permissions k).2.2) ∧
    (∀ v, v ≠ ['y'] → v ≠ ['Y'] → v ≠ ['n'] → v ≠ ['N'] →
      PM.handleKey st.permissions (.char v) = (st.permissions, true, [])) ∧
    (PM.isPMActionKey k = false → PM.handleKey st.permissions k = (st.permissions, true, [])) := by
  refine ⟨?_,
    fun v h1 h2 h3 h4 => PM.handleKey_swallow_char st.permissions v hq h1 h2 h3 h4,
    fun hk => PM.handleKey_swallow_other st.permissions k hq hk⟩
  have hcons := PM.handleKey_consumed st.permissions k hq
  cases k <;>
    first
      | exact absurd rfl hc
      | exact absurd rfl he
      | simp [Cli.cliHandleKey, hcons]

/-- Witness for C10 at the concrete scenario state and the up-arrow key
(which would move the editor cursor were the modal state not active). -/
theorem C10_modal_amended_witness :
    Cli.c10St.permissions.queue ≠ [] ∧
    (CliInput.KeyAction.up ≠ .ctrlC) ∧
    (CliInput.KeyAction.up ≠ .escape) ∧
    Cli.cliHandleKey Cli.trivialPrompts Cli.c10St .up =
      (.cont { Cli.c10St with
        permissions := (PM.handleKey Cli.c10St.permissions .up).1 },
        (PM.handleKey Cli.c10St.permissions .up).2.2) ∧
    PM.handleKey Cli.c10St.permissions .up = (Cli.c10St.permissions, true, []) := by
  have h := C10_modal_amended Cli.trivialPrompts Cli.c10St .up (by decide)
    (by decide) (by decide)
  exact ⟨by decide, by decide, by decide, h.1, h.2.2 (by decide)⟩
